import Mathlib

/-!
Verification of the audio augmentation engine of the hey-jarvis repository
(`scripts/preprocessing/augment_data.py`, class `AudioAugmenter`).

Audio buffers are modelled as `List ℝ` (numpy 1-D float arrays under exact
real arithmetic).  Randomness (the crop offset drawn by `random.randint`
inside `add_noise`, and the subset of background files drawn by
`random.sample` inside `augment_sample`) is modelled by explicit parameters.
File I/O outcomes (`sf.read` / `sf.write` succeeding or failing) are
modelled by `Option` load results and a boolean save oracle.  A Python
exception that the code does not catch (the `ZeroDivisionError` raised by
`int(np.ceil(len(audio) / len(noise)))` on an empty noise buffer) is
modelled by `Option` / `Except` error values.
-/

namespace AugmentData

open scoped Classical

/-- Mean-square power `np.mean(x ** 2)` of a buffer, as computed at
`augment_data.py:108-109` (sum of squared samples divided by the length;
numpy's mean of an empty array is modelled as `0/0 = 0`). -/
noncomputable def meanSquare (xs : List ℝ) : ℝ :=
  (xs.map (fun x => x ^ 2)).sum / xs.length

/-- Linear SNR `10 ** (snr_db / 10.0)` from `augment_data.py:112`. -/
noncomputable def snrLinear (snr_db : ℝ) : ℝ :=
  (10 : ℝ) ^ (snr_db / 10)

/-- Noise gain `np.sqrt(signal_power / (snr_linear * noise_power))` from
`augment_data.py:113`, computed from the signal and the aligned noise. -/
noncomputable def noiseScale (audio noise : List ℝ) (snr_db : ℝ) : ℝ :=
  Real.sqrt (meanSquare audio / (snrLinear snr_db * meanSquare noise))

/-- The final mixing step `audio + scale * noise` of `add_noise`
(`augment_data.py:107-116`), applied to a noise buffer that has already
been aligned to the signal's length (elementwise numpy addition). -/
noncomputable def mixAligned (audio noise : List ℝ) (snr_db : ℝ) : List ℝ :=
  List.zipWith (fun a b => a + noiseScale audio noise snr_db * b) audio noise

/-- The length-alignment step of `add_noise` (`augment_data.py:97-105`):
if the noise is shorter than the target it is tiled
(`np.tile(noise, int(np.ceil(target / len(noise))))[:target]`), otherwise a
window of the target length starting at the drawn offset `start`
(`random.randint(0, len(noise) - target)`) is cut out
(`noise[start:start + target]`). -/
noncomputable def alignNoise (noise : List ℝ) (target : ℕ) (start : ℕ) : List ℝ :=
  if noise.length < target then
    (List.flatten (List.replicate (Nat.ceil ((target : ℚ) / (noise.length : ℚ))) noise)).take target
  else
    (noise.drop start).take target

/-- The whole of `AudioAugmenter.add_noise` (`augment_data.py:85-116`).
`start` is the offset drawn by `random.randint` in the trim branch.  When
the noise buffer is empty and shorter than the signal, the Python code
raises `ZeroDivisionError` while computing
`int(np.ceil(len(audio) / len(noise)))`; this is modelled as `none`. -/
noncomputable def add_noise (audio noise : List ℝ) (snr_db : ℝ) (start : ℕ) :
    Option (List ℝ) :=
  if noise.length < audio.length then
    if noise.length = 0 then none
    else some (mixAligned audio (alignNoise noise audio.length start) snr_db)
  else
    some (mixAligned audio (alignNoise noise audio.length start) snr_db)

/-- `AudioAugmenter.change_volume` (`augment_data.py:118-129`):
elementwise `audio * factor`. -/
noncomputable def change_volume (audio : List ℝ) (factor : ℝ) : List ℝ :=
  audio.map (fun x => x * factor)

/-- The index list of `AudioAugmenter.time_stretch` (`augment_data.py:143-144`):
`indices = np.arange(0, n, rate)` (the values `k * rate` for
`k < ceil(n / rate)`), filtered to `indices < n`, then truncated to
integers by `astype(int)` (floor on the nonnegative values involved). -/
noncomputable def stretchIndices (n : ℕ) (rate : ℝ) : List ℕ :=
  (((List.range (Nat.ceil ((n : ℝ) / rate))).map (fun k : ℕ => (k : ℝ) * rate)).filter
      (fun t => decide (t < (n : ℝ)))).map (fun t => (Int.floor t).toNat)

/-- `AudioAugmenter.time_stretch` (`augment_data.py:131-145`): gather
`audio[indices]`. -/
noncomputable def time_stretch (audio : List ℝ) (rate : ℝ) : List ℝ :=
  (stretchIndices audio.length rate).map (fun i => audio.getD i 0)

/-- Model of `np.linspace(0, stop, num)` (`augment_data.py:195`): `num`
evenly spaced points from `0` to `stop` inclusive (`k * stop / (num - 1)`;
a single point is `0`; zero points is the empty list). -/
noncomputable def linspace (stop : ℝ) (num : ℕ) : List ℝ :=
  (List.range num).map (fun k : ℕ => if num = 1 then 0 else (k : ℝ) * stop / ((num : ℝ) - 1))

/-- Model of `np.interp(t, np.arange(len(fp)), fp)` for one query point `t`
(`augment_data.py:194-198`): clamped piecewise-linear interpolation of the
samples `fp` over the integer grid `0, 1, …, len(fp) - 1`. -/
noncomputable def interpGrid (fp : List ℝ) (t : ℝ) : ℝ :=
  if t ≤ 0 then fp.headI
  else if (fp.length : ℝ) - 1 ≤ t then fp.getLastD 0
  else
    fp.getD (Int.floor t).toNat 0 +
      (t - Int.floor t) * (fp.getD ((Int.floor t).toNat + 1) 0 - fp.getD (Int.floor t).toNat 0)

/-- The noise-resampling step of `augment_sample` (`augment_data.py:191-198`):
when the noise's native rate differs from the signal's rate, replace the
noise by `np.interp(np.linspace(0, len(noise), int(len(noise) * sr / noise_sr)),
np.arange(len(noise)), noise)`; otherwise pass it through unchanged. -/
noncomputable def resampleNoise (noise : List ℝ) (noise_sr sr : ℕ) : List ℝ :=
  if noise_sr ≠ sr then
    (linspace (noise.length : ℝ)
        (Nat.floor (((noise.length * sr : ℕ) : ℚ) / (noise_sr : ℚ)))).map (interpGrid noise)
  else noise

/-- Environment of one `augment_sample` call: the `sf.read` outcome for the
positive sample (`none` models a load failure, in which case the code
returns `0`), the `sf.read` outcomes of the background files drawn by
`random.sample` (an entry is `none` when that load fails), the success of
each `sf.write` keyed by variant tag (`0` = original, `1`/`2` = volume
`0.7`/`1.3`, `3`/`4` = speed `0.9`/`1.1`, `5 + i` = noise variant `i`),
and the crop offsets drawn by `random.randint` inside `add_noise`. -/
structure SampleEnv where
  loadMain : Option (List ℝ × ℕ)
  chosen : List (Option (List ℝ × ℕ))
  saveOk : ℕ → Bool
  starts : ℕ → ℕ

/-- The background-noise loop of `augment_sample` (`augment_data.py:186-203`):
for the `i`-th drawn background file, a failed load is skipped; otherwise
the noise is resampled if needed and mixed via `add_noise` at 15 dB SNR
(an `add_noise` exception propagates, modelled as `Except.error`), and a
successful write contributes one to the count.  Returns the count of
successful writes together with the written `(tag, buffer)` pairs. -/
noncomputable def noiseLoop (audio : List ℝ) (sr : ℕ) (saveOk : ℕ → Bool)
    (starts : ℕ → ℕ) : List (Option (List ℝ × ℕ)) → ℕ → Except Unit (ℕ × List (ℕ × List ℝ))
  | [], _ => .ok (0, [])
  | none :: rest, i => noiseLoop audio sr saveOk starts rest (i + 1)
  | some (noise, noise_sr) :: rest, i =>
    match add_noise audio (resampleNoise noise noise_sr sr) 15 (starts i) with
    | none => .error ()
    | some mixed =>
      match noiseLoop audio sr saveOk starts rest (i + 1) with
      | .error e => .error e
      | .ok (c, w) =>
        if saveOk (5 + i) then .ok (c + 1, (5 + i, mixed) :: w) else .ok (c, w)

/-- The five fixed variants of `augment_sample` (`augment_data.py:167-184`)
as `(tag, buffer)` pairs: the unmodified copy, the volume variants at
factors `0.7` and `1.3`, and the speed variants at rates `0.9` and `1.1`. -/
noncomputable def fixedVariants (audio : List ℝ) : List (ℕ × List ℝ) :=
  [(0, audio), (1, change_volume audio 0.7), (2, change_volume audio 1.3),
   (3, time_stretch audio 0.9), (4, time_stretch audio 1.1)]

/-- `AudioAugmenter.augment_sample` (`augment_data.py:147-205`): on a load
failure return `0`; otherwise attempt the five fixed variants and then the
noise variants, counting the writes that succeed.  The result also carries
the list of `(tag, buffer)` pairs actually written; an uncaught exception
from the noise loop is `Except.error`. -/
noncomputable def augment_sample (env : SampleEnv) : Except Unit (ℕ × List (ℕ × List ℝ)) :=
  match env.loadMain with
  | none => .ok (0, [])
  | some (audio, sr) =>
    match noiseLoop audio sr env.saveOk env.starts env.chosen 0 with
    | .error e => .error e
    | .ok (c, w) =>
      .ok (((fixedVariants audio).map (fun p => if env.saveOk p.1 then 1 else 0)).sum + c,
        (fixedVariants audio).filter (fun p => env.saveOk p.1) ++ w)

/-- The per-sample loop of `augment_all` (`augment_data.py:226-231`): sum
the counts returned by `augment_sample` over all jobs (and the number of
files written); an uncaught exception propagates. -/
noncomputable def runJobs : List SampleEnv → Except Unit (ℕ × ℕ)
  | [] => .ok (0, 0)
  | env :: rest =>
    match augment_sample env with
    | .error e => .error e
    | .ok (c, w) =>
      match runJobs rest with
      | .error e => .error e
      | .ok (total, files) => .ok (c + total, w.length + files)

/-- Outcome of one `augment_all` run: whether the empty-dataset condition
was reported (`augment_data.py:221-223`), and the final report's original
count, augmented count and number of files written. -/
structure RunReport where
  emptyDataset : Bool
  originals : ℕ
  augmented : ℕ
  filesWritten : ℕ

/-- `AudioAugmenter.augment_all` (`augment_data.py:207-238`), with the
positive-sample glob modelled as the job list: zero positive samples is
reported and the run returns cleanly with no augmentation; otherwise every
job runs and the totals are reported. -/
noncomputable def augment_all (jobs : List SampleEnv) : Except Unit RunReport :=
  if jobs.isEmpty then .ok ⟨true, 0, 0, 0⟩
  else
    match runJobs jobs with
    | .error e => .error e
    | .ok (total, files) => .ok ⟨false, jobs.length, total, files⟩

/-- Concrete environment: the positive sample fails to load. -/
noncomputable def envLoadFail : SampleEnv := ⟨none, [], fun _ => true, fun _ => 0⟩

/-- Concrete environment: one loaded sample, three loadable background
files at the sample's rate, all writes succeed. -/
noncomputable def envAllGood : SampleEnv :=
  ⟨some ([(1 : ℝ)], 1), [some ([(1 : ℝ)], 1), some ([(1 : ℝ)], 1), some ([(1 : ℝ)], 1)],
    fun _ => true, fun _ => 0⟩

/-- Concrete environment: one loaded sample and no background files. -/
noncomputable def envNoBackground : SampleEnv :=
  ⟨some ([(1 : ℝ)], 1), [], fun _ => true, fun _ => 0⟩

/-- Concrete environment: one loaded sample, a background file that fails
to load, and failing writes. -/
noncomputable def envWriteFails : SampleEnv :=
  ⟨some ([(1 : ℝ)], 1), [none], fun _ => false, fun _ => 0⟩

/-- Concrete environment: one loaded nonempty sample and a background file
that loads to an empty buffer at the sample's rate. -/
noncomputable def envEmptyNoise : SampleEnv :=
  ⟨some ([(1 : ℝ)], 1), [some (([] : List ℝ), 1)], fun _ => true, fun _ => 0⟩

/-! ### Helper lemmas -/

theorem map_getD_range (s : List ℝ) :
    (List.range s.length).map (fun i => s.getD i 0) = s := by
  apply List.ext_getElem
  · simp
  · intro i h1 h2
    simp [List.getD_eq_getElem?_getD, List.getElem?_eq_getElem, h2]

theorem length_flatten_replicate (r : ℕ) (n : List ℝ) :
    (List.flatten (List.replicate r n)).length = r * n.length := by
  simp [List.length_flatten, List.map_replicate, List.sum_replicate, smul_eq_mul]

theorem le_ceil_mul (L m : ℕ) (hm : 0 < m) :
    L ≤ Nat.ceil ((L : ℚ) / (m : ℚ)) * m := by
  have h := Nat.le_ceil ((L : ℚ) / (m : ℚ))
  have hm' : (0 : ℚ) < (m : ℚ) := by exact_mod_cast hm
  rw [div_le_iff₀ hm'] at h
  exact_mod_cast h

theorem add_noise_total (audio noise : List ℝ) (d : ℝ) (start : ℕ) (h : noise ≠ []) :
    ∃ r, add_noise audio noise d start = some r := by
  have hlen : ¬ noise.length = 0 := fun hh => h (List.length_eq_zero.mp hh)
  refine ⟨mixAligned audio (alignNoise noise audio.length start) d, ?_⟩
  by_cases hlt : noise.length < audio.length
  · simp [add_noise, hlt, hlen]
  · simp [add_noise, hlt]

theorem add_noise_empty (audio : List ℝ) (d : ℝ) (start : ℕ) (h : audio ≠ []) :
    add_noise audio ([] : List ℝ) d start = none := by
  have hl : ([] : List ℝ).length < audio.length := by
    simp only [List.length_nil, List.length_pos]
    exact h
  simp [add_noise, hl, h]

theorem noiseLoop_nil (audio : List ℝ) (sr : ℕ) (saveOk : ℕ → Bool) (starts : ℕ → ℕ) (i : ℕ) :
    noiseLoop audio sr saveOk starts [] i = .ok (0, []) := by
  simp [noiseLoop]

theorem noiseLoop_none (audio : List ℝ) (sr : ℕ) (saveOk : ℕ → Bool) (starts : ℕ → ℕ)
    (rest : List (Option (List ℝ × ℕ))) (i : ℕ) :
    noiseLoop audio sr saveOk starts (none :: rest) i =
      noiseLoop audio sr saveOk starts rest (i + 1) := by
  simp [noiseLoop]

theorem noiseLoop_some_err (audio : List ℝ) (sr : ℕ) (saveOk : ℕ → Bool) (starts : ℕ → ℕ)
    (noise : List ℝ) (noise_sr : ℕ) (rest : List (Option (List ℝ × ℕ))) (i : ℕ)
    (hr : add_noise audio (resampleNoise noise noise_sr sr) 15 (starts i) = none) :
    noiseLoop audio sr saveOk starts (some (noise, noise_sr) :: rest) i = .error () := by
  simp [noiseLoop, hr]

theorem noiseLoop_some_inner_err (audio : List ℝ) (sr : ℕ) (saveOk : ℕ → Bool)
    (starts : ℕ → ℕ) (noise : List ℝ) (noise_sr : ℕ) (rest : List (Option (List ℝ × ℕ)))
    (i : ℕ) (r : List ℝ) (e : Unit)
    (hr : add_noise audio (resampleNoise noise noise_sr sr) 15 (starts i) = some r)
    (he : noiseLoop audio sr saveOk starts rest (i + 1) = .error e) :
    noiseLoop audio sr saveOk starts (some (noise, noise_sr) :: rest) i = .error e := by
  simp [noiseLoop, hr, he]

theorem noiseLoop_some_ok (audio : List ℝ) (sr : ℕ) (saveOk : ℕ → Bool) (starts : ℕ → ℕ)
    (noise : List ℝ) (noise_sr : ℕ) (rest : List (Option (List ℝ × ℕ))) (i : ℕ) (r : List ℝ)
    (c : ℕ) (w : List (ℕ × List ℝ))
    (hr : add_noise audio (resampleNoise noise noise_sr sr) 15 (starts i) = some r)
    (hok : noiseLoop audio sr saveOk starts rest (i + 1) = .ok (c, w)) :
    noiseLoop audio sr saveOk starts (some (noise, noise_sr) :: rest) i =
      if saveOk (5 + i) then .ok (c + 1, (5 + i, r) :: w) else .ok (c, w) := by
  simp only [noiseLoop, hr, hok]

theorem augment_sample_load_fail (env : SampleEnv) (h : env.loadMain = none) :
    augment_sample env = .ok (0, []) := by
  simp [augment_sample, h]

theorem augment_sample_ok (env : SampleEnv) (audio : List ℝ) (sr : ℕ) (c : ℕ)
    (w : List (ℕ × List ℝ)) (h : env.loadMain = some (audio, sr))
    (hok : noiseLoop audio sr env.saveOk env.starts env.chosen 0 = .ok (c, w)) :
    augment_sample env =
      .ok (((fixedVariants audio).map (fun p => if env.saveOk p.1 then 1 else 0)).sum + c,
        (fixedVariants audio).filter (fun p => env.saveOk p.1) ++ w) := by
  simp only [augment_sample, h, hok]

theorem augment_sample_raises (env : SampleEnv) (audio : List ℝ) (sr : ℕ) (e : Unit)
    (h : env.loadMain = some (audio, sr))
    (he : noiseLoop audio sr env.saveOk env.starts env.chosen 0 = .error e) :
    augment_sample env = .error e := by
  simp only [augment_sample, h, he]

theorem sum_map_ite_length (l : List (ℕ × List ℝ)) (q : ℕ × List ℝ → Bool) :
    (l.map (fun p => if q p then 1 else 0)).sum = (l.filter q).length := by
  induction l with
  | nil => rfl
  | cons a t ih =>
    cases h : q a with
    | false => simp [List.filter_cons, h, ih]
    | true => simp [List.filter_cons, h, ih, Nat.add_comm]

theorem noiseLoop_good_ok (audio : List ℝ) (sr : ℕ) (saveOk : ℕ → Bool) (starts : ℕ → ℕ)
    (items : List (Option (List ℝ × ℕ))) :
    ∀ i : ℕ,
      (∀ item ∈ items, ∀ noise noise_sr, item = some (noise, noise_sr) →
        resampleNoise noise noise_sr sr ≠ []) →
      ∃ c w, noiseLoop audio sr saveOk starts items i = .ok (c, w) ∧ c = w.length ∧
        ∀ p ∈ w, saveOk p.1 = true := by
  induction items with
  | nil =>
    intro i _
    exact ⟨0, [], noiseLoop_nil audio sr saveOk starts i, rfl, by simp⟩
  | cons item rest ih =>
    intro i h
    obtain ⟨c, w, hok, hcw, hw⟩ := ih (i + 1) (fun it hm => h it (List.mem_cons_of_mem _ hm))
    rcases item with _ | ⟨noise, noise_sr⟩
    · exact ⟨c, w, (noiseLoop_none audio sr saveOk starts rest i).trans hok, hcw, hw⟩
    · obtain ⟨r, hr⟩ := add_noise_total audio (resampleNoise noise noise_sr sr) 15 (starts i)
        (h _ (List.mem_cons_self _ _) noise noise_sr rfl)
      cases hs : saveOk (5 + i) with
      | true =>
        refine ⟨c + 1, (5 + i, r) :: w, ?_, by simp [hcw], ?_⟩
        · rw [noiseLoop_some_ok audio sr saveOk starts noise noise_sr rest i r c w hr hok]
          simp [hs]
        · intro p hp
          rcases List.mem_cons.mp hp with h1 | h1
          · rw [h1]; exact hs
          · exact hw p h1
      | false =>
        refine ⟨c, w, ?_, hcw, hw⟩
        rw [noiseLoop_some_ok audio sr saveOk starts noise noise_sr rest i r c w hr hok]
        simp [hs]

theorem noiseLoop_all_saved (audio : List ℝ) (sr : ℕ) (saveOk : ℕ → Bool) (starts : ℕ → ℕ)
    (hsave : ∀ k, saveOk k = true) (items : List (Option (List ℝ × ℕ))) :
    ∀ i : ℕ,
      (∀ item ∈ items, ∃ noise noise_sr, item = some (noise, noise_sr) ∧
        resampleNoise noise noise_sr sr ≠ []) →
      ∃ w, noiseLoop audio sr saveOk starts items i = .ok (items.length, w) ∧
        w.length = items.length := by
  induction items with
  | nil =>
    intro i _
    exact ⟨[], noiseLoop_nil audio sr saveOk starts i, rfl⟩
  | cons item rest ih =>
    intro i h
    obtain ⟨noise, noise_sr, hitem, hne⟩ := h item (List.mem_cons_self _ _)
    subst hitem
    obtain ⟨r, hr⟩ := add_noise_total audio (resampleNoise noise noise_sr sr) 15 (starts i) hne
    obtain ⟨w, hok, hlw⟩ := ih (i + 1) (fun it hm => h it (List.mem_cons_of_mem _ hm))
    refine ⟨(5 + i, r) :: w, ?_, by simp [hlw]⟩
    rw [noiseLoop_some_ok audio sr saveOk starts noise noise_sr rest i r rest.length w hr hok]
    simp [hsave]

theorem noiseLoop_count_eq_written (audio : List ℝ) (sr : ℕ) (saveOk : ℕ → Bool)
    (starts : ℕ → ℕ) (items : List (Option (List ℝ × ℕ))) :
    ∀ (i c : ℕ) (w : List (ℕ × List ℝ)),
      noiseLoop audio sr saveOk starts items i = .ok (c, w) → c = w.length := by
  induction items with
  | nil =>
    intro i c w h
    rw [noiseLoop_nil] at h
    simp only [Except.ok.injEq, Prod.mk.injEq] at h
    simp [← h.1, ← h.2]
  | cons item rest ih =>
    intro i c w h
    rcases item with _ | ⟨noise, noise_sr⟩
    · rw [noiseLoop_none] at h
      exact ih (i + 1) c w h
    · cases hx : add_noise audio (resampleNoise noise noise_sr sr) 15 (starts i) with
      | none =>
        rw [noiseLoop_some_err audio sr saveOk starts noise noise_sr rest i hx] at h
        cases h
      | some r =>
        cases hy : noiseLoop audio sr saveOk starts rest (i + 1) with
        | error e =>
          rw [noiseLoop_some_inner_err audio sr saveOk starts noise noise_sr rest i r e hx hy] at h
          cases h
        | ok p =>
          obtain ⟨c', w'⟩ := p
          rw [noiseLoop_some_ok audio sr saveOk starts noise noise_sr rest i r c' w' hx hy] at h
          have hcw := ih (i + 1) c' w' hy
          cases hs : saveOk (5 + i) with
          | true =>
            rw [hs] at h
            simp only [if_true, Except.ok.injEq, Prod.mk.injEq] at h
            simp [← h.1, ← h.2, hcw]
          | false =>
            rw [hs] at h
            simp only [Bool.false_eq_true, if_false, Except.ok.injEq, Prod.mk.injEq] at h
            simp [← h.1, ← h.2, hcw]

/-! ### Claims -/

/-- C7: for every signal `s` and factor `f`, `change_volume` returns a
buffer of the same length with `scale_volume(s, f)[i] == s[i] * f` at every
index `i` (out-of-range reads default to `0 = 0 * f`); in particular
`change_volume s 1 = s`. -/
theorem change_volume_spec :
    (∀ (s : List ℝ) (f : ℝ), (change_volume s f).length = s.length) ∧
    (∀ (s : List ℝ) (f : ℝ) (i : ℕ), (change_volume s f).getD i 0 = s.getD i 0 * f) ∧
    (∀ s : List ℝ, change_volume s 1 = s) := by
  refine ⟨fun s f => by simp [change_volume], fun s f i => ?_, fun s => by simp [change_volume]⟩
  induction s generalizing i with
  | nil => simp [change_volume]
  | cons a t ih =>
    cases i with
    | zero => simp [change_volume]
    | succ j => simpa [change_volume] using ih j

/-- C6: `time_stretch s 1 = s` — at rate exactly `1.0` the generated index
positions `0, 1, 2, …` select every sample exactly once in order. -/
theorem time_stretch_one (s : List ℝ) : time_stretch s 1 = s := by
  have hidx : stretchIndices s.length 1 = List.range s.length := by
    set n := s.length with hn
    have h1 : (List.range n).map (fun k : ℕ => (k : ℝ) * 1) =
        (List.range n).map (fun k : ℕ => (k : ℝ)) := by
      simp
    have h2 : ((List.range n).map (fun k : ℕ => (k : ℝ))).filter (fun t => decide (t < (n : ℝ))) =
        (List.range n).map (fun k : ℕ => (k : ℝ)) := by
      refine List.filter_eq_self.mpr ?_
      intro a ha
      obtain ⟨k, hk, rfl⟩ := List.mem_map.mp ha
      simp only [decide_eq_true_eq]
      exact_mod_cast List.mem_range.mp hk
    have h3 : (((List.range n).map (fun k : ℕ => (k : ℝ))).map (fun t => (Int.floor t).toNat)) =
        List.range n := by
      rw [List.map_map]
      refine (List.map_congr_left ?_).trans (List.map_id _)
      intro k _
      simp
    unfold stretchIndices
    rw [div_one, Nat.ceil_natCast, h1, h2, h3]
  rw [time_stretch, hidx, map_getD_range]

/-- C3: the alignment step of `add_noise` — a noise buffer shorter than
the target is tiled to exactly the target length with its first `len n`
samples unchanged; a noise buffer at least as long yields the contiguous
slice of the target length at the drawn offset; a buffer of exactly the
target length passes through unchanged (the drawn offset is necessarily
`0`). -/
theorem alignNoise_spec :
    (∀ (n : List ℝ) (L start : ℕ), n.length < L → 0 < n.length →
      (alignNoise n L start).length = L ∧ (alignNoise n L start).take n.length = n) ∧
    (∀ (n : List ℝ) (L start : ℕ), L ≤ n.length → start + L ≤ n.length →
      (alignNoise n L start).length = L ∧ alignNoise n L start = (n.drop start).take L) ∧
    (∀ (n : List ℝ) (L : ℕ), n.length = L → alignNoise n L 0 = n) := by
  refine ⟨fun n L start hlt hpos => ?_, fun n L start hle hstart => ?_, fun n L h => ?_⟩
  · have hmul := le_ceil_mul L n.length hpos
    have hr : 1 ≤ Nat.ceil ((L : ℚ) / (n.length : ℚ)) := by
      refine Nat.ceil_pos.mpr (div_pos ?_ ?_)
      · exact_mod_cast Nat.lt_of_le_of_lt (Nat.zero_le _) hlt
      · exact_mod_cast hpos
    constructor
    · simp only [alignNoise, if_pos hlt, List.length_take, length_flatten_replicate]
      omega
    · simp only [alignNoise, if_pos hlt]
      rw [List.take_take, min_eq_left hlt.le]
      obtain ⟨r, hrr⟩ : ∃ r, Nat.ceil ((L : ℚ) / (n.length : ℚ)) = r + 1 :=
        ⟨_, (Nat.succ_pred_eq_of_pos hr).symm⟩
      rw [hrr, List.replicate_succ, List.flatten_cons, List.take_left]
  · have hnot : ¬ n.length < L := not_lt.mpr hle
    refine ⟨?_, by simp [alignNoise, hnot]⟩
    simp only [alignNoise, if_neg hnot, List.length_take, List.length_drop]
    omega
  · have hnot : ¬ n.length < L := by omega
    simp only [alignNoise, if_neg hnot, List.drop_zero]
    rw [← h, List.take_length]

/-- C3 witness. -/
theorem alignNoise_spec_witness :
    (([(1 : ℝ)] : List ℝ).length < 2 ∧ 0 < ([(1 : ℝ)] : List ℝ).length ∧
      (alignNoise [(1 : ℝ)] 2 0).length = 2 ∧ (alignNoise [(1 : ℝ)] 2 0).take 1 = [(1 : ℝ)]) ∧
    (1 ≤ ([(1 : ℝ), 2] : List ℝ).length ∧ 1 + 1 ≤ ([(1 : ℝ), 2] : List ℝ).length ∧
      (alignNoise [(1 : ℝ), 2] 1 1).length = 1 ∧
      alignNoise [(1 : ℝ), 2] 1 1 = (([(1 : ℝ), 2] : List ℝ).drop 1).take 1) ∧
    (([(1 : ℝ)] : List ℝ).length = 1 ∧ alignNoise [(1 : ℝ)] 1 0 = [(1 : ℝ)]) := by
  have h1 := alignNoise_spec.1 [(1 : ℝ)] 2 0 (by simp) (by simp)
  have h2 := alignNoise_spec.2.1 [(1 : ℝ), 2] 1 1 (by simp) (by simp)
  have h3 := alignNoise_spec.2.2 [(1 : ℝ)] 1 (by simp)
  exact ⟨⟨by simp, by simp, h1.1, by simpa using h1.2⟩,
    ⟨by simp, by simp, h2.1, h2.2⟩, ⟨by simp, h3⟩⟩

/-- C1: for a noise buffer already aligned to the signal's length (so that
the alignment step is the identity and the drawn offset is necessarily
`0`), with strictly positive noise power, `add_noise` returns exactly
`s + g * n` elementwise, with `g = sqrt(signal_power / (snr_linear *
noise_power))` and `snr_linear = 10^(snr_db/10)`, and the result has the
signal's length. -/
theorem add_noise_aligned_formula (s n : List ℝ) (snr_db : ℝ)
    (hlen : n.length = s.length) (_hpow : 0 < meanSquare n) :
    ∃ r, add_noise s n snr_db 0 = some r ∧
      r = List.zipWith (fun a b =>
            a + Real.sqrt (meanSquare s / ((10 : ℝ) ^ (snr_db / 10) * meanSquare n)) * b) s n ∧
      r.length = s.length := by
  have hnot : ¬ n.length < s.length := by omega
  have halign : alignNoise n s.length 0 = n := alignNoise_spec.2.2 n s.length hlen
  refine ⟨mixAligned s n snr_db, ?_, ?_, ?_⟩
  · simp [add_noise, hnot, halign]
  · simp only [mixAligned, noiseScale, snrLinear]
  · simp only [mixAligned, List.length_zipWith]
    omega

/-- C1 witness. -/
theorem add_noise_aligned_formula_witness :
    ([(2 : ℝ)] : List ℝ).length = ([(1 : ℝ)] : List ℝ).length ∧ 0 < meanSquare [(2 : ℝ)] ∧
      ∃ r, add_noise [(1 : ℝ)] [(2 : ℝ)] 0 0 = some r ∧
        r = List.zipWith (fun a b =>
              a + Real.sqrt (meanSquare [(1 : ℝ)] /
                ((10 : ℝ) ^ ((0 : ℝ) / 10) * meanSquare [(2 : ℝ)])) * b) [(1 : ℝ)] [(2 : ℝ)] ∧
        r.length = ([(1 : ℝ)] : List ℝ).length := by
  refine ⟨rfl, by norm_num [meanSquare], ?_⟩
  exact add_noise_aligned_formula [(1 : ℝ)] [(2 : ℝ)] 0 rfl (by norm_num [meanSquare])

/-- C5: for fixed signal and aligned noise of strictly positive power, the
noise gain computed by the mixer is strictly decreasing in `snr_db`. -/
theorem noiseScale_strictAnti (s n : List ℝ) (hs : 0 < meanSquare s)
    (hn : 0 < meanSquare n) (d1 d2 : ℝ) (h : d1 < d2) :
    noiseScale s n d2 < noiseScale s n d1 := by
  unfold noiseScale snrLinear
  have hlt : (10 : ℝ) ^ (d1 / 10) < (10 : ℝ) ^ (d2 / 10) := by
    refine (Real.rpow_lt_rpow_left_iff (by norm_num)).mpr ?_
    linarith
  have hp1 : (0 : ℝ) < (10 : ℝ) ^ (d1 / 10) := Real.rpow_pos_of_pos (by norm_num) _
  have hp2 : (0 : ℝ) < (10 : ℝ) ^ (d2 / 10) := Real.rpow_pos_of_pos (by norm_num) _
  refine Real.sqrt_lt_sqrt (div_pos hs (mul_pos hp2 hn)).le ?_
  exact div_lt_div_of_pos_left hs (mul_pos hp1 hn) (mul_lt_mul_of_pos_right hlt hn)

/-- C5 witness. -/
theorem noiseScale_strictAnti_witness :
    0 < meanSquare [(1 : ℝ)] ∧ (0 : ℝ) < 1 ∧
      noiseScale [(1 : ℝ)] [(1 : ℝ)] 1 < noiseScale [(1 : ℝ)] [(1 : ℝ)] 0 := by
  refine ⟨by norm_num [meanSquare], by norm_num, ?_⟩
  exact noiseScale_strictAnti [(1 : ℝ)] [(1 : ℝ)] (by norm_num [meanSquare])
    (by norm_num [meanSquare]) 0 1 (by norm_num)

theorem runJobs_nil : runJobs [] = .ok (0, 0) := by
  simp [runJobs]

theorem runJobs_cons_ok (env : SampleEnv) (rest : List SampleEnv) (c : ℕ)
    (w : List (ℕ × List ℝ)) (t f : ℕ)
    (h1 : augment_sample env = .ok (c, w)) (h2 : runJobs rest = .ok (t, f)) :
    runJobs (env :: rest) = .ok (c + t, w.length + f) := by
  simp [runJobs, h1, h2]

theorem noiseLoop_abort_on_empty (audio : List ℝ) (sr : ℕ) (saveOk : ℕ → Bool)
    (starts : ℕ → ℕ) (haudio : audio ≠ []) (pre : List (Option (List ℝ × ℕ))) :
    ∀ (rest : List (Option (List ℝ × ℕ))) (i : ℕ),
      noiseLoop audio sr saveOk starts (pre ++ some (([] : List ℝ), sr) :: rest) i =
        .error () := by
  induction pre with
  | nil =>
    intro rest i
    have h1 : resampleNoise ([] : List ℝ) sr sr = [] := by simp [resampleNoise]
    have h2 : add_noise audio (resampleNoise ([] : List ℝ) sr sr) 15 (starts i) = none := by
      rw [h1]
      exact add_noise_empty audio 15 (starts i) haudio
    simpa using noiseLoop_some_err audio sr saveOk starts [] sr rest i h2
  | cons item pres ih =>
    intro rest i
    rcases item with _ | ⟨noise, noise_sr⟩
    · rw [List.cons_append, noiseLoop_none]
      exact ih rest (i + 1)
    · rw [List.cons_append]
      cases hx : add_noise audio (resampleNoise noise noise_sr sr) 15 (starts i) with
      | none => exact noiseLoop_some_err audio sr saveOk starts noise noise_sr _ i hx
      | some r =>
        exact noiseLoop_some_inner_err audio sr saveOk starts noise noise_sr _ i r () hx
          (ih rest (i + 1))

/-- C10: when a loaded noise file's native rate differs from the signal's
rate, the linearly interpolated resampled buffer has length exactly
`int(len(noise) * sr / noise_sr)` (floor division); when the rates are
equal the noise is passed to mixing unchanged. -/
theorem resampleNoise_spec :
    (∀ (noise : List ℝ) (noise_sr sr : ℕ), noise_sr ≠ sr →
      (resampleNoise noise noise_sr sr).length = noise.length * sr / noise_sr) ∧
    (∀ (noise : List ℝ) (sr : ℕ), resampleNoise noise sr sr = noise) := by
  constructor
  · intro noise noise_sr sr hne
    simp only [resampleNoise, if_pos hne, List.length_map, linspace, List.length_range]
    exact Nat.floor_div_eq_div _ _
  · intro noise sr
    simp [resampleNoise]

/-- C10 witness. -/
theorem resampleNoise_spec_witness :
    (1 : ℕ) ≠ 2 ∧
      (resampleNoise [(1 : ℝ), 2] 1 2).length = ([(1 : ℝ), 2] : List ℝ).length * 2 / 1 ∧
      resampleNoise [(1 : ℝ), 2] 2 2 = [(1 : ℝ), 2] :=
  ⟨by decide, resampleNoise_spec.1 [(1 : ℝ), 2] 1 2 (by decide),
    resampleNoise_spec.2 [(1 : ℝ), 2] 2⟩

/-- C2: for one positive sample that loads, with three drawn background
files that all load (to effectively nonempty noise) and every write
succeeding, augment_sample returns 8 and writes 8 files; with zero
background files it returns 5 and writes 5; and in every non-raising run
the returned count equals the number of files written. -/
theorem augment_sample_counts :
    (∀ (env : SampleEnv) (audio : List ℝ) (sr : ℕ), env.loadMain = some (audio, sr) →
      env.chosen.length = 3 →
      (∀ item ∈ env.chosen, ∃ noise noise_sr, item = some (noise, noise_sr) ∧
        resampleNoise noise noise_sr sr ≠ []) →
      (∀ k, env.saveOk k = true) →
      ∃ w, augment_sample env = .ok (8, w) ∧ w.length = 8) ∧
    (∀ (env : SampleEnv) (audio : List ℝ) (sr : ℕ), env.loadMain = some (audio, sr) →
      env.chosen = [] → (∀ k, env.saveOk k = true) →
      ∃ w, augment_sample env = .ok (5, w) ∧ w.length = 5) ∧
    (∀ (env : SampleEnv) (c : ℕ) (w : List (ℕ × List ℝ)),
      augment_sample env = .ok (c, w) → c = w.length) := by
  refine ⟨?_, ?_, ?_⟩
  · intro env audio sr hload hlen3 hgood hsave
    obtain ⟨w, hok, hlw⟩ :=
      noiseLoop_all_saved audio sr env.saveOk env.starts hsave env.chosen 0 hgood
    rw [hlen3] at hok hlw
    refine ⟨fixedVariants audio ++ w, ?_, by simp [fixedVariants, hlw]⟩
    rw [augment_sample_ok env audio sr 3 w hload hok]
    simp [fixedVariants, hsave]
  · intro env audio sr hload hnil hsave
    have hok : noiseLoop audio sr env.saveOk env.starts env.chosen 0 = .ok (0, []) := by
      rw [hnil]
      exact noiseLoop_nil audio sr env.saveOk env.starts 0
    refine ⟨fixedVariants audio, ?_, by simp [fixedVariants]⟩
    rw [augment_sample_ok env audio sr 0 [] hload hok]
    simp [fixedVariants, hsave]
  · intro env c w h
    cases hload : env.loadMain with
    | none =>
      rw [augment_sample_load_fail env hload] at h
      simp only [Except.ok.injEq, Prod.mk.injEq] at h
      simp [← h.1, ← h.2]
    | some p =>
      obtain ⟨audio, sr⟩ := p
      cases hnl : noiseLoop audio sr env.saveOk env.starts env.chosen 0 with
      | error e =>
        rw [augment_sample_raises env audio sr e hload hnl] at h
        cases h
      | ok q =>
        obtain ⟨c', w'⟩ := q
        rw [augment_sample_ok env audio sr c' w' hload hnl] at h
        simp only [Except.ok.injEq, Prod.mk.injEq] at h
        have h1 := noiseLoop_count_eq_written audio sr env.saveOk env.starts env.chosen 0 c' w' hnl
        rw [← h.1, ← h.2]
        simp [sum_map_ite_length, h1]

/-- C2 witness. -/
theorem augment_sample_counts_witness :
    (envAllGood.chosen.length = 3 ∧
      ∃ w, augment_sample envAllGood = .ok (8, w) ∧ w.length = 8) ∧
    (envNoBackground.chosen = [] ∧
      ∃ w, augment_sample envNoBackground = .ok (5, w) ∧ w.length = 5) ∧
    (augment_sample envLoadFail = .ok (0, []) ∧
      (0 : ℕ) = ([] : List (ℕ × List ℝ)).length) := by
  refine ⟨?_, ?_, ?_⟩
  · refine ⟨rfl, augment_sample_counts.1 envAllGood [(1 : ℝ)] 1 rfl rfl ?_ (fun _ => rfl)⟩
    intro item hm
    have hitem : item = some ([(1 : ℝ)], 1) := by
      simp only [envAllGood, List.mem_cons, List.not_mem_nil, or_false, or_self] at hm
      exact hm
    exact ⟨[(1 : ℝ)], 1, hitem, by simp [resampleNoise]⟩
  · exact ⟨rfl, augment_sample_counts.2.1 envNoBackground [(1 : ℝ)] 1 rfl rfl (fun _ => rfl)⟩
  · exact ⟨augment_sample_load_fail envLoadFail rfl,
      augment_sample_counts.2.2 envLoadFail 0 [] (augment_sample_load_fail envLoadFail rfl)⟩

/-- C4: a positive sample that fails to load makes augment_sample return 0
without raising; when no chosen noise buffer is empty after resampling
(the only uncaught failure mode), per-variant load and write failures only
lose their own contribution — the call returns normally, the count equals
the number of files written, and only variants whose write succeeded
appear among the written files; and a whole batch of such jobs runs to
completion (no job aborts its siblings). -/
theorem variant_failure_isolated :
    (∀ env : SampleEnv, env.loadMain = none → augment_sample env = .ok (0, [])) ∧
    (∀ (env : SampleEnv) (audio : List ℝ) (sr : ℕ), env.loadMain = some (audio, sr) →
      (∀ item ∈ env.chosen, ∀ noise noise_sr, item = some (noise, noise_sr) →
        resampleNoise noise noise_sr sr ≠ []) →
      ∃ c w, augment_sample env = .ok (c, w) ∧ c = w.length ∧
        ∀ p ∈ w, env.saveOk p.1 = true) ∧
    (∀ jobs : List SampleEnv,
      (∀ env ∈ jobs, ∀ (audio : List ℝ) (sr : ℕ), env.loadMain = some (audio, sr) →
        ∀ item ∈ env.chosen, ∀ noise noise_sr, item = some (noise, noise_sr) →
          resampleNoise noise noise_sr sr ≠ []) →
      ∃ r, runJobs jobs = .ok r) := by
  refine ⟨augment_sample_load_fail, ?_, ?_⟩
  · intro env audio sr hload hgood
    obtain ⟨c, w, hok, hcw, hw⟩ :=
      noiseLoop_good_ok audio sr env.saveOk env.starts env.chosen 0 hgood
    refine ⟨_, _, augment_sample_ok env audio sr c w hload hok, ?_, ?_⟩
    · simp [sum_map_ite_length, hcw]
    · intro p hp
      rcases List.mem_append.mp hp with h1 | h1
      · exact (List.mem_filter.mp h1).2
      · exact hw p h1
  · intro jobs
    induction jobs with
    | nil => exact fun _ => ⟨(0, 0), runJobs_nil⟩
    | cons env rest ih =>
      intro hjobs
      obtain ⟨⟨t, f⟩, hr⟩ := ih (fun e he => hjobs e (List.mem_cons_of_mem _ he))
      cases hload : env.loadMain with
      | none =>
        exact ⟨_, runJobs_cons_ok env rest 0 [] t f (augment_sample_load_fail env hload) hr⟩
      | some p =>
        obtain ⟨audio, sr⟩ := p
        obtain ⟨c, w, hok, -, -⟩ := noiseLoop_good_ok audio sr env.saveOk env.starts env.chosen 0
          (hjobs env (List.mem_cons_self _ _) audio sr hload)
        exact ⟨_, runJobs_cons_ok env rest _ _ t f
          (augment_sample_ok env audio sr c w hload hok) hr⟩

/-- C4 witness. -/
theorem variant_failure_isolated_witness :
    (envLoadFail.loadMain = none ∧ augment_sample envLoadFail = .ok (0, [])) ∧
    (∃ c w, augment_sample envWriteFails = .ok (c, w) ∧ c = w.length ∧
      ∀ p ∈ w, envWriteFails.saveOk p.1 = true) ∧
    (∃ r, runJobs [envLoadFail] = .ok r) := by
  refine ⟨⟨rfl, variant_failure_isolated.1 envLoadFail rfl⟩, ?_, ?_⟩
  · refine variant_failure_isolated.2.1 envWriteFails [(1 : ℝ)] 1 rfl ?_
    intro item hm noise noise_sr hitem
    simp only [envWriteFails, List.mem_cons, List.not_mem_nil, or_false] at hm
    rw [hm] at hitem
    cases hitem
  · refine variant_failure_isolated.2.2 [envLoadFail] ?_
    intro e he audio sr hload
    simp only [List.mem_cons, List.not_mem_nil, or_false] at he
    rw [he] at hload
    cases hload

/-- C9: add_noise is total for every nonempty noise buffer (the drawn crop
offset is always in range); an empty noise buffer with a nonempty signal
makes the tile-repeat computation divide by len(noise) == 0, and that
error is not caught by the noise-variant loop of augment_sample, so it
aborts the remaining variants of the job. -/
theorem add_noise_empty_aborts :
    (∀ (audio noise : List ℝ) (d : ℝ) (start : ℕ), noise ≠ [] →
      ∃ r, add_noise audio noise d start = some r) ∧
    (∀ (audio : List ℝ) (d : ℝ) (start : ℕ), audio ≠ [] →
      add_noise audio ([] : List ℝ) d start = none) ∧
    (∀ (env : SampleEnv) (audio : List ℝ) (sr : ℕ)
        (pre rest : List (Option (List ℝ × ℕ))),
      env.loadMain = some (audio, sr) → audio ≠ [] →
      env.chosen = pre ++ some (([] : List ℝ), sr) :: rest →
      augment_sample env = .error ()) := by
  refine ⟨add_noise_total, add_noise_empty, ?_⟩
  intro env audio sr pre rest hload haudio hchosen
  refine augment_sample_raises env audio sr () hload ?_
  rw [hchosen]
  exact noiseLoop_abort_on_empty audio sr env.saveOk env.starts haudio pre rest 0

/-- C9 witness. -/
theorem add_noise_empty_aborts_witness :
    (([(2 : ℝ)] : List ℝ) ≠ [] ∧ ∃ r, add_noise [(1 : ℝ)] [(2 : ℝ)] 15 0 = some r) ∧
    (([(1 : ℝ)] : List ℝ) ≠ [] ∧ add_noise [(1 : ℝ)] ([] : List ℝ) 15 0 = none) ∧
    augment_sample envEmptyNoise = .error () := by
  refine ⟨⟨by simp, add_noise_empty_aborts.1 [(1 : ℝ)] [(2 : ℝ)] 15 0 (by simp)⟩,
    ⟨by simp, add_noise_empty_aborts.2.1 [(1 : ℝ)] 15 0 (by simp)⟩, ?_⟩
  exact add_noise_empty_aborts.2.2 envEmptyNoise [(1 : ℝ)] 1 [] [] rfl (by simp) rfl

/-- C8: with zero positive samples, augment_all reports the empty-dataset
condition, performs no augmentation, writes zero output files and returns
cleanly rather than failing. -/
theorem augment_all_empty_dataset : augment_all [] = .ok ⟨true, 0, 0, 0⟩ := by
  simp [augment_all]

end AugmentData
